import Mathlib

/-!
A verification development for the tourist-trip REST service
(`src/app/routes.py`).  The route handlers are modelled as pure functions
over an explicit collection state (`List Trip`); HTTP bodies are modelled
as association lists of JSON values; Python floats are modelled as exact
rationals.  Each handler definition is a direct transcription of the
corresponding Python function.
-/

/-- A JSON value as stored in a trip record or sent in a request body.
Python floats are modelled as exact rationals. -/
inductive Value where
  | str (s : String)
  | int (n : Int)
  | float (q : ℚ)
  | bool (b : Bool)
  | null
deriving DecidableEq

/-- Kind tag used to order values of different kinds.  Python numbers
(`int`, `float`, `bool`) are mutually comparable; strings compare only with
strings; `None` compares with nothing. -/
def Value.kindRank : Value → Nat
  | .int _ => 0
  | .float _ => 0
  | .bool _ => 0
  | .str _ => 1
  | .null => 2

/-- Numeric content of a value, following Python where `True == 1` and
`False == 0`.  Zero for non-numbers (never consulted for those). -/
def Value.numVal : Value → ℚ
  | .int n => (n : ℚ)
  | .float q => q
  | .bool b => if b then 1 else 0
  | _ => 0

/-- String content of a value; empty for non-strings (never consulted). -/
def Value.strVal : Value → String
  | .str s => s
  | _ => ""

def Value.isStr : Value → Bool
  | .str _ => true
  | _ => false

/-- Whether the value is a Python number (`int`, `float` or `bool`). -/
def Value.isNum : Value → Bool
  | .int _ => true
  | .float _ => true
  | .bool _ => true
  | _ => false

/-- Lexicographic comparison of character lists by code point, the order
Python uses on strings. -/
def charListLe : List Char → List Char → Bool
  | [], _ => true
  | _ :: _, [] => false
  | a :: as, b :: bs =>
    if a.toNat < b.toNat then true
    else if b.toNat < a.toNat then false
    else charListLe as bs

def strLe (a b : String) : Bool :=
  charListLe a.data b.data

/-- Total comparison on values.  On pairs Python can compare (two numbers,
or two strings) it agrees with Python's `<=`; Python raises `TypeError` on
the remaining pairs, which we totalise by the kind tag so that the sort
below is defined everywhere.  All claims about sorting are stated for
schema-typed collections, where only the Python-comparable cases arise. -/
def vle (a b : Value) : Bool :=
  if a.kindRank < b.kindRank then true
  else if b.kindRank < a.kindRank then false
  else if a.kindRank = 0 then decide (a.numVal ≤ b.numVal)
  else if a.kindRank = 1 then strLe a.strVal b.strVal
  else true

theorem charListLe_cons_iff {x y : Char} {xs ys : List Char} :
    charListLe (x :: xs) (y :: ys) = true ↔
      x.toNat < y.toNat ∨ (x.toNat = y.toNat ∧ charListLe xs ys = true) := by
  simp only [charListLe]
  split_ifs with h1 h2
  · simp [h1]
  · constructor
    · intro h; exact absurd h (by simp)
    · rintro (h | ⟨h, _⟩) <;> omega
  · constructor
    · intro h; right; exact ⟨by omega, h⟩
    · rintro (h | ⟨_, h⟩)
      · omega
      · exact h

theorem charListLe_total : ∀ a b : List Char, charListLe a b = true ∨ charListLe b a = true := by
  intro a
  induction a with
  | nil => intro b; left; rfl
  | cons x xs ih =>
    intro b
    cases b with
    | nil => right; rfl
    | cons y ys =>
      rw [charListLe_cons_iff, charListLe_cons_iff]
      rcases Nat.lt_trichotomy x.toNat y.toNat with h | h | h
      · left; left; exact h
      · rcases ih ys with h' | h'
        · left; right; exact ⟨h, h'⟩
        · right; right; exact ⟨h.symm, h'⟩
      · right; left; exact h

theorem charListLe_trans :
    ∀ a b c : List Char, charListLe a b = true → charListLe b c = true →
      charListLe a c = true := by
  intro a
  induction a with
  | nil => intro b c _ _; rfl
  | cons x xs ih =>
    intro b c hab hbc
    cases b with
    | nil => simp [charListLe] at hab
    | cons y ys =>
      cases c with
      | nil => simp [charListLe] at hbc
      | cons z zs =>
        rw [charListLe_cons_iff] at hab hbc ⊢
        rcases hab with h | ⟨e, r⟩
        · rcases hbc with h' | ⟨e', _⟩
          · left; omega
          · left; omega
        · rcases hbc with h' | ⟨e', r'⟩
          · left; omega
          · right; exact ⟨by omega, ih ys zs r r'⟩

theorem vle_total : ∀ a b : Value, vle a b = true ∨ vle b a = true := by
  intro a b
  unfold vle
  rcases Nat.lt_trichotomy a.kindRank b.kindRank with h | h | h
  · left; simp [h]
  · have h1 : ¬ a.kindRank < b.kindRank := by omega
    have h2 : ¬ b.kindRank < a.kindRank := by omega
    by_cases h0 : a.kindRank = 0
    · have h0' : b.kindRank = 0 := by omega
      rcases le_total a.numVal b.numVal with hq | hq
      · left; simp [h1, h2, h0, hq]
      · right; simp [h1, h2, h0', hq]
    · by_cases hsr : a.kindRank = 1
      · have hs' : b.kindRank = 1 := by omega
        have h0' : ¬ b.kindRank = 0 := by omega
        rcases charListLe_total a.strVal.data b.strVal.data with hc | hc
        · left; simp [h1, h2, h0, hsr, strLe, hc]
          omega
        · right; simp [h1, h2, h0', hs', strLe, hc]
          omega
      · left; simp [h1, h2, h0, hsr]
  · right; simp [h]

theorem vle_trans :
    ∀ a b c : Value, vle a b = true → vle b c = true → vle a c = true := by
  intro a b c hab hbc
  unfold vle at hab hbc ⊢
  rcases Nat.lt_trichotomy a.kindRank b.kindRank with h1 | h1 | h1
  · rcases Nat.lt_trichotomy b.kindRank c.kindRank with h2 | h2 | h2
    · simp [show a.kindRank < c.kindRank by omega]
    · simp [show a.kindRank < c.kindRank by omega]
    · simp [show ¬ b.kindRank < c.kindRank by omega, h2] at hbc
  · rcases Nat.lt_trichotomy b.kindRank c.kindRank with h2 | h2 | h2
    · simp [show a.kindRank < c.kindRank by omega]
    · have na1 : ¬ a.kindRank < b.kindRank := by omega
      have na2 : ¬ b.kindRank < a.kindRank := by omega
      have nb1 : ¬ b.kindRank < c.kindRank := by omega
      have nb2 : ¬ c.kindRank < b.kindRank := by omega
      have nc1 : ¬ a.kindRank < c.kindRank := by omega
      have nc2 : ¬ c.kindRank < a.kindRank := by omega
      simp only [if_neg na1, if_neg na2] at hab
      simp only [if_neg nb1, if_neg nb2] at hbc
      simp only [if_neg nc1, if_neg nc2]
      by_cases h0 : a.kindRank = 0
      · have h0b : b.kindRank = 0 := by omega
        simp [h0] at hab ⊢
        simp [h0b] at hbc
        exact le_trans hab hbc
      · by_cases hsr : a.kindRank = 1
        · have h0b : ¬ b.kindRank = 0 := by omega
          have hsb : b.kindRank = 1 := by omega
          simp [h0, hsr, strLe] at hab ⊢
          simp [h0b, hsb, strLe] at hbc
          exact charListLe_trans _ _ _ hab hbc
        · simp [h0, hsr]
    · simp [show ¬ b.kindRank < c.kindRank by omega, h2] at hbc
  · simp [show ¬ a.kindRank < b.kindRank by omega, h1] at hab

theorem vle_refl (a : Value) : vle a a = true := by
  rcases vle_total a a with h | h <;> exact h

/-- A trip record: the integer id assigned by the service plus the five
payload fields.  Fields are stored as raw JSON values because `update_trip`
copies caller-provided values without coercion; `create_trip` always stores
a string-kinded destination and hotel and numeric days, price and rating. -/
structure Trip where
  id : Int
  destination : Value
  days : Value
  price : Value
  hotel : Value
  rating : Value
deriving DecidableEq

/-- Dictionary lookup `t.get(f)` on a trip record: every stored trip dict
has exactly these six keys; other keys give `None`. -/
def Trip.get (t : Trip) (f : String) : Value :=
  if f = "id" then .int t.id
  else if f = "destination" then t.destination
  else if f = "days" then t.days
  else if f = "price" then t.price
  else if f = "hotel" then t.hotel
  else if f = "rating" then t.rating
  else .null

/-- The keys present on every stored trip dict. -/
def tripKeys : List String :=
  ["id", "destination", "days", "price", "hotel", "rating"]

/-- The five required payload fields, in the order `create_trip` checks
and `update_trip` writes them. -/
def requiredFields : List String :=
  ["destination", "days", "price", "hotel", "rating"]

/-- A trip matching the spec's data model: string destination and hotel,
numeric days, price and rating.  Trips produced by `create_trip` are
well typed; `update_trip` performs no validation and can break this. -/
def WellTyped (t : Trip) : Bool :=
  t.destination.isStr && t.days.isNum && t.price.isNum && t.hotel.isStr && t.rating.isNum

/-- Leading and trailing whitespace removal, as Python `int`/`float`
apply to string arguments. -/
def pyTrim (cs : List Char) : List Char :=
  ((cs.dropWhile Char.isWhitespace).reverse.dropWhile Char.isWhitespace).reverse

/-- Value of a digit string, most significant first. -/
def digitsVal (cs : List Char) : Nat :=
  cs.foldl (fun n c => n * 10 + (c.toNat - 48)) 0

/-- Parse a non-empty run of decimal digits. -/
def parseDigits (cs : List Char) : Option Nat :=
  if cs ≠ [] ∧ cs.all Char.isDigit then some (digitsVal cs) else none

/-- Python `int(s)` on a string: optional surrounding whitespace, optional
sign, decimal digits.  (Underscore separators and non-decimal bases are not
modelled.) -/
def parseSignedInt (s : String) : Option Int :=
  match pyTrim s.data with
  | '-' :: rest => (parseDigits rest).map (fun n => -(n : Int))
  | '+' :: rest => (parseDigits rest).map (fun n => (n : Int))
  | cs => (parseDigits cs).map (fun n => (n : Int))

/-- Parse an unsigned decimal literal: digits, optionally followed by a
point and digits, with at least one digit in total. -/
def parseUnsignedFloat (cs : List Char) : Option ℚ :=
  let intPart := cs.takeWhile Char.isDigit
  match cs.dropWhile Char.isDigit with
  | [] => if intPart ≠ [] then some (digitsVal intPart : ℚ) else none
  | '.' :: frac =>
    if frac.all Char.isDigit ∧ (intPart ≠ [] ∨ frac ≠ []) then
      some ((digitsVal intPart : ℚ) + (digitsVal frac : ℚ) / (10 ^ frac.length : ℚ))
    else none
  | _ => none

/-- Python `float(s)` on a string: optional surrounding whitespace, optional
sign, decimal literal.  (Exponent notation and `inf`/`nan` are not
modelled; they are irrelevant to the validation claims.) -/
def parseFloatStr (s : String) : Option ℚ :=
  match pyTrim s.data with
  | '-' :: rest => (parseUnsignedFloat rest).map Neg.neg
  | '+' :: rest => parseUnsignedFloat rest
  | cs => parseUnsignedFloat cs

/-- Truncation toward zero, the behaviour of Python `int` on a float. -/
def ratTrunc (q : ℚ) : Int :=
  if 0 ≤ q then ⌊q⌋ else ⌈q⌉

/-- Python `int(x)` on a JSON value: `none` means the call raises. -/
def pyInt : Value → Option Int
  | .int n => some n
  | .float q => some (ratTrunc q)
  | .bool b => some (if b then 1 else 0)
  | .str s => parseSignedInt s
  | .null => none

/-- Python `float(x)` on a JSON value: `none` means the call raises. -/
def pyFloat : Value → Option ℚ
  | .int n => some (n : ℚ)
  | .float q => some q
  | .bool b => some (if b then 1 else 0)
  | .str s => parseFloatStr s
  | .null => none

/-- ASCII lower-casing of one character (`str.lower` restricted to the
ASCII range, which covers the `order` query values). -/
def charLower (c : Char) : Char :=
  if 65 ≤ c.toNat ∧ c.toNat ≤ 90 then Char.ofNat (c.toNat + 32) else c

/-- Python `s.lower()` (ASCII fragment). -/
def pyLower (s : String) : String :=
  ⟨s.data.map charLower⟩

/-- `_get_next_id`: `1` on the empty collection, otherwise the maximum
stored id plus one. -/
def _get_next_id (trips : List Trip) : Int :=
  match trips with
  | [] => 1
  | t :: ts => ts.foldl (fun m u => max m u.id) t.id + 1

/-- Outcome of `create_trip`.  `badJson` is the 400 response for a falsy
parsed body (invalid JSON, or an empty object, which is falsy in Python);
`missingField f` is the 400 response naming the first absent required
field; `valueError` is an uncaught exception escaping from `int()` or
`float()` (no handler exists in the route, so Flask turns it into an
internal server error, not a structured 400); `created t` is the 201
response. -/
inductive CreateResult where
  | badJson
  | missingField (f : String)
  | valueError
  | created (t : Trip)
deriving DecidableEq

/-- `create_trip`: the request body is an association list of JSON values.
Returns the new collection together with the response. -/
def create_trip (trips : List Trip) (data : List (String × Value)) :
    List Trip × CreateResult :=
  if data.isEmpty then (trips, .badJson)
  else
    match requiredFields.find? (fun f => (data.lookup f).isNone) with
    | some f => (trips, .missingField f)
    | none =>
      match pyInt ((data.lookup "days").getD .null),
            pyFloat ((data.lookup "price").getD .null),
            pyFloat ((data.lookup "rating").getD .null) with
      | some d, some p, some r =>
        let t : Trip := ⟨_get_next_id trips, (data.lookup "destination").getD .null,
                         .int d, .float p, (data.lookup "hotel").getD .null, .float r⟩
        (trips ++ [t], .created t)
      | _, _, _ => (trips, .valueError)

/-- Ascending key order used by `get_trips` when sorting by field `s`. -/
def ascBy (s : String) (a b : Trip) : Prop :=
  vle (a.get s) (b.get s) = true

/-- Descending key order used by `get_trips` for `order=desc`
(`list.sort(..., reverse=True)` is the stable sort by the flipped
comparator). -/
def descBy (s : String) (a b : Trip) : Prop :=
  vle (b.get s) (a.get s) = true

instance ascByDecidable (s : String) : DecidableRel (ascBy s) := fun a b => by
  unfold ascBy; infer_instance

instance descByDecidable (s : String) : DecidableRel (descBy s) := fun a b => by
  unfold descBy; infer_instance

/-- `get_trips`: optional `sort` and `order` query parameters.  Sorting
happens only when `sort` is a non-empty key of the first record; Python's
`list.sort` is stable, modelled by insertion sort. -/
def get_trips (trips : List Trip) (sort : Option String) (order : Option String) :
    List Trip :=
  let ord := pyLower (order.getD "asc")
  match sort with
  | none => trips
  | some s =>
    if s ≠ "" ∧ trips ≠ [] ∧ s ∈ tripKeys then
      if ord = "desc" then List.insertionSort (descBy s) trips
      else List.insertionSort (ascBy s) trips
    else trips

/-- Overwrite one named field of a trip record (`trip[field] = v`).
Unknown field names leave the record unchanged; the update loop only ever
passes the five payload fields, so `id` is never written. -/
def setField (f : String) (v : Value) (t : Trip) : Trip :=
  if f = "destination" then ⟨t.id, v, t.days, t.price, t.hotel, t.rating⟩
  else if f = "days" then ⟨t.id, t.destination, v, t.price, t.hotel, t.rating⟩
  else if f = "price" then ⟨t.id, t.destination, t.days, v, t.hotel, t.rating⟩
  else if f = "hotel" then ⟨t.id, t.destination, t.days, t.price, v, t.rating⟩
  else if f = "rating" then ⟨t.id, t.destination, t.days, t.price, t.hotel, v⟩
  else t

/-- One iteration of the update loop: copy field `f` from the payload when
present. -/
def updStep (data : List (String × Value)) (acc : Trip) (f : String) : Trip :=
  match data.lookup f with
  | some v => setField f v acc
  | none => acc

/-- The body of the update loop: overwrite exactly the payload-present
fields among the five updatable ones. -/
def applyUpdate (data : List (String × Value)) (t : Trip) : Trip :=
  requiredFields.foldl (updStep data) t

/-- `update_trip`: find the first record with the given id; `none` is the
404 response, otherwise the updated record is returned and replaced in
place. -/
def update_trip : List Trip → Int → List (String × Value) → List Trip × Option Trip
  | [], _, _ => ([], none)
  | t :: ts, tid, data =>
    if t.id = tid then
      let t' := applyUpdate data t
      (t' :: ts, some t')
    else
      let r := update_trip ts tid data
      (t :: r.1, r.2)

/-- `delete_trip`: keep every record whose id differs; the Boolean is
`true` for the 200 confirmation and `false` for the 404 response (taken
when the length did not change). -/
def delete_trip (trips : List Trip) (tid : Int) : List Trip × Bool :=
  let rest := trips.filter (fun t => decide (t.id ≠ tid))
  (rest, decide (¬ rest.length = trips.length))

/-- Round half to even (Python `round` on exact values). -/
def roundHalfEven (q : ℚ) : Int :=
  let f := ⌊q⌋
  if q - f < 1/2 then f
  else if 1/2 < q - f then f + 1
  else if f % 2 = 0 then f else f + 1

/-- Python `round(x, 2)` on an exact rational. -/
def pyRound2 (q : ℚ) : ℚ :=
  (roundHalfEven (q * 100) : ℚ) / 100

/-- Python `min` over a list of numbers (zero on the empty list, which the
handler never passes). -/
def pyMin : List ℚ → ℚ
  | [] => 0
  | x :: xs => xs.foldl min x

/-- Python `max` over a list of numbers. -/
def pyMax : List ℚ → ℚ
  | [] => 0
  | x :: xs => xs.foldl max x

/-- Python `sum` over a list of numbers. -/
def pySum (l : List ℚ) : ℚ :=
  l.foldl (· + ·) 0

/-- The `min`/`max`/`avg` triple reported for one numeric field. -/
structure FieldStats where
  min : ℚ
  max : ℚ
  avg : ℚ
deriving DecidableEq

/-- The stats response body. -/
structure StatsResult where
  days : FieldStats
  price : FieldStats
  rating : FieldStats
deriving DecidableEq

/-- Outcome of `trips_stats`: `noData` is the 400 response on an empty
collection; `typeError` is an uncaught exception when a stored field is
not a number (possible only after an unvalidated update); `ok` is the 200
response. -/
inductive StatsOut where
  | noData
  | typeError
  | ok (s : StatsResult)
deriving DecidableEq

/-- The `min`/`max`/`round(avg, 2)` triple the handler computes for one
numeric column. -/
def fieldStatsOf (l : List ℚ) : FieldStats :=
  ⟨pyMin l, pyMax l, pyRound2 (pySum l / l.length)⟩

/-- `trips_stats`: min, max and 2-decimal-rounded average of the three
numeric fields over all records. -/
def trips_stats (trips : List Trip) : StatsOut :=
  if trips = [] then .noData
  else if ((trips.map Trip.days ++ trips.map Trip.price) ++ trips.map Trip.rating).all
      Value.isNum then
    .ok ⟨fieldStatsOf ((trips.map Trip.days).map Value.numVal),
         fieldStatsOf ((trips.map Trip.price).map Value.numVal),
         fieldStatsOf ((trips.map Trip.rating).map Value.numVal)⟩
  else .typeError

theorem foldl_min_mem {α : Type} [LinearOrder α] :
    ∀ (l : List α) (x : α), l.foldl min x = x ∨ l.foldl min x ∈ l := by
  intro l
  induction l with
  | nil => intro x; left; rfl
  | cons y ys ih =>
    intro x
    rcases ih (min x y) with h | h
    · rcases min_choice x y with hm | hm
      · left; simpa [hm] using h
      · right
        rw [List.foldl_cons, h, hm]
        exact List.mem_cons_self y ys
    · right; right; exact h

theorem foldl_min_le {α : Type} [LinearOrder α] :
    ∀ (l : List α) (x : α), l.foldl min x ≤ x ∧ ∀ y ∈ l, l.foldl min x ≤ y := by
  intro l
  induction l with
  | nil => intro x; exact ⟨le_refl x, by simp⟩
  | cons z zs ih =>
    intro x
    obtain ⟨h1, h2⟩ := ih (min x z)
    refine ⟨le_trans h1 (min_le_left x z), ?_⟩
    intro y hy
    rcases List.mem_cons.mp hy with rfl | hy
    · exact le_trans h1 (min_le_right _ _)
    · exact h2 y hy

theorem foldl_max_mem {α : Type} [LinearOrder α] :
    ∀ (l : List α) (x : α), l.foldl max x = x ∨ l.foldl max x ∈ l := by
  intro l
  induction l with
  | nil => intro x; left; rfl
  | cons y ys ih =>
    intro x
    rcases ih (max x y) with h | h
    · rcases max_choice x y with hm | hm
      · left; simpa [hm] using h
      · right
        rw [List.foldl_cons, h, hm]
        exact List.mem_cons_self y ys
    · right; right; exact h

theorem foldl_max_le {α : Type} [LinearOrder α] :
    ∀ (l : List α) (x : α), x ≤ l.foldl max x ∧ ∀ y ∈ l, y ≤ l.foldl max x := by
  intro l
  induction l with
  | nil => intro x; exact ⟨le_refl x, by simp⟩
  | cons z zs ih =>
    intro x
    obtain ⟨h1, h2⟩ := ih (max x z)
    refine ⟨le_trans (le_max_left x z) h1, ?_⟩
    intro y hy
    rcases List.mem_cons.mp hy with rfl | hy
    · exact le_trans (le_max_right _ _) h1
    · exact h2 y hy

/-- `pyMin` of a non-empty list is a member and a lower bound. -/
theorem pyMin_spec (l : List ℚ) (h : l ≠ []) :
    pyMin l ∈ l ∧ ∀ y ∈ l, pyMin l ≤ y := by
  cases l with
  | nil => exact absurd rfl h
  | cons x xs =>
    have hdef : pyMin (x :: xs) = List.foldl min x xs := rfl
    constructor
    · rcases foldl_min_mem xs x with h' | h'
      · rw [hdef, h']; exact List.mem_cons_self x xs
      · rw [hdef]; exact List.mem_cons_of_mem x h'
    · intro y hy
      obtain ⟨h1, h2⟩ := foldl_min_le xs x
      rw [hdef]
      rcases List.mem_cons.mp hy with rfl | hy
      · exact h1
      · exact h2 y hy

/-- `pyMax` of a non-empty list is a member and an upper bound. -/
theorem pyMax_spec (l : List ℚ) (h : l ≠ []) :
    pyMax l ∈ l ∧ ∀ y ∈ l, y ≤ pyMax l := by
  cases l with
  | nil => exact absurd rfl h
  | cons x xs =>
    have hdef : pyMax (x :: xs) = List.foldl max x xs := rfl
    constructor
    · rcases foldl_max_mem xs x with h' | h'
      · rw [hdef, h']; exact List.mem_cons_self x xs
      · rw [hdef]; exact List.mem_cons_of_mem x h'
    · intro y hy
      obtain ⟨h1, h2⟩ := foldl_max_le xs x
      rw [hdef]
      rcases List.mem_cons.mp hy with rfl | hy
      · exact h1
      · exact h2 y hy

/-- The handler's left fold agrees with the mathematical list sum. -/
theorem pySum_eq_sum (l : List ℚ) : pySum l = l.sum := by
  rw [pySum, List.sum_eq_foldl]

theorem ascBy_total (s : String) : ∀ a b : Trip, ascBy s a b ∨ ascBy s b a := by
  intro a b
  exact vle_total (a.get s) (b.get s)

theorem ascBy_trans (s : String) :
    ∀ a b c : Trip, ascBy s a b → ascBy s b c → ascBy s a c := by
  intro a b c h1 h2
  exact vle_trans _ _ _ h1 h2

theorem descBy_total (s : String) : ∀ a b : Trip, descBy s a b ∨ descBy s b a := by
  intro a b
  rcases vle_total (a.get s) (b.get s) with h | h
  · right; exact h
  · left; exact h

theorem descBy_trans (s : String) :
    ∀ a b c : Trip, descBy s a b → descBy s b c → descBy s a c := by
  intro a b c h1 h2
  exact vle_trans _ _ _ h2 h1

/-- A stable sort leaves each equal-key fibre of the list untouched. -/
theorem insertionSort_filter_eq {α : Type} {r : α → α → Prop} [DecidableRel r]
    (l : List α) (p : α → Bool) (hp : ∀ a b, p a = true → p b = true → r a b) :
    (List.insertionSort r l).filter p = l.filter p := by
  have hpair : (l.filter p).Pairwise r :=
    List.pairwise_of_forall_mem_list
      (fun a ha b hb => hp a b (List.of_mem_filter ha) (List.of_mem_filter hb))
  have hsub : List.Sublist (l.filter p) (List.insertionSort r l) :=
    List.sublist_insertionSort hpair (List.filter_sublist l)
  have hsub2 : List.Sublist ((l.filter p).filter p) ((List.insertionSort r l).filter p) :=
    List.Sublist.filter p hsub
  have hself : (l.filter p).filter p = l.filter p :=
    List.filter_eq_self.mpr (fun a ha => List.of_mem_filter ha)
  rw [hself] at hsub2
  have hlen : ((List.insertionSort r l).filter p).length = (l.filter p).length :=
    ((List.perm_insertionSort r l).filter p).length_eq
  exact (hsub2.eq_of_length hlen.symm).symm

/-- Successful creation appends one record carrying the next id. -/
theorem create_trip_created {trips trips' : List Trip} {data : List (String × Value)}
    {t : Trip} (h : create_trip trips data = (trips', .created t)) :
    t.id = _get_next_id trips ∧ trips' = trips ++ [t] ∧
    (∃ d, t.days = .int d) ∧ (∃ p, t.price = .float p) ∧ (∃ r, t.rating = .float r) := by
  unfold create_trip at h
  split at h
  · simp at h
  · split at h
    · simp at h
    · split at h
      · rename_i d p r hd hp hr
        obtain ⟨h1, h2⟩ := Prod.mk.injEq _ _ _ _ ▸ h
        cases h2
        exact ⟨rfl, h1.symm, ⟨d, rfl⟩, ⟨p, rfl⟩, ⟨r, rfl⟩⟩
      · simp at h

/-- On a non-empty collection the next id exceeds every stored id and is
one more than one of them. -/
theorem next_id_spec (trips : List Trip) (hne : trips ≠ []) :
    (∃ u ∈ trips, _get_next_id trips = u.id + 1) ∧
    ∀ u ∈ trips, u.id < _get_next_id trips := by
  cases trips with
  | nil => exact absurd rfl hne
  | cons t ts =>
    have hfold : ts.foldl (fun m u => max m u.id) t.id = (ts.map Trip.id).foldl max t.id := by
      rw [List.foldl_map]
    have hnext : _get_next_id (t :: ts) = (ts.map Trip.id).foldl max t.id + 1 := by
      have hdef : _get_next_id (t :: ts) = ts.foldl (fun m u => max m u.id) t.id + 1 := rfl
      rw [hdef, hfold]
    constructor
    · rcases foldl_max_mem (ts.map Trip.id) t.id with h | h
      · exact ⟨t, List.mem_cons_self t ts, by rw [hnext, h]⟩
      · obtain ⟨u, hu, hid⟩ := List.mem_map.mp h
        exact ⟨u, List.mem_cons_of_mem t hu, by rw [hnext, hid]⟩
    · intro u hu
      obtain ⟨h1, h2⟩ := foldl_max_le (ts.map Trip.id) t.id
      rw [hnext]
      rcases List.mem_cons.mp hu with rfl | hu
      · omega
      · have := h2 u.id (List.mem_map.mpr ⟨u, hu, rfl⟩)
        omega

/-- Update on an absent id touches nothing. -/
theorem update_trip_notFound (trips : List Trip) (tid : Int) (data : List (String × Value))
    (h : ∀ u ∈ trips, u.id ≠ tid) :
    update_trip trips tid data = (trips, none) := by
  induction trips with
  | nil => rfl
  | cons t ts ih =>
    have hne : ¬ t.id = tid := h t (List.mem_cons_self t ts)
    have hts := ih (fun u hu => h u (List.mem_cons_of_mem t hu))
    simp only [update_trip, if_neg hne, hts]

/-- Update rewrites exactly the first record carrying the id. -/
theorem update_trip_found (pre post : List Trip) (t0 : Trip) (tid : Int)
    (data : List (String × Value)) (hpre : ∀ u ∈ pre, u.id ≠ tid) (ht : t0.id = tid) :
    update_trip (pre ++ t0 :: post) tid data =
      (pre ++ applyUpdate data t0 :: post, some (applyUpdate data t0)) := by
  induction pre with
  | nil => simp [update_trip, ht]
  | cons q qs ih =>
    have hne : ¬ q.id = tid := hpre q (List.mem_cons_self q qs)
    have hqs := ih (fun u hu => hpre u (List.mem_cons_of_mem q hu))
    simp [update_trip, if_neg hne, hqs]

theorem updStep_id (data : List (String × Value)) (acc : Trip) (f : String) :
    (updStep data acc f).id = acc.id := by
  unfold updStep
  cases data.lookup f with
  | none => rfl
  | some v =>
    unfold setField
    split_ifs <;> rfl

/-- The update loop never writes the id, even when the payload has an
`id` key. -/
theorem applyUpdate_id (data : List (String × Value)) (t : Trip) :
    (applyUpdate data t).id = t.id := by
  have hgen : ∀ (fs : List String) (t : Trip), (fs.foldl (updStep data) t).id = t.id := by
    intro fs
    induction fs with
    | nil => intro t; rfl
    | cons f fs ih =>
      intro t
      rw [List.foldl_cons, ih, updStep_id]
  exact hgen requiredFields t

/-- Field-by-field description of the update loop: a field present in the
payload is overwritten with the payload value, an absent field keeps its
stored value. -/
theorem applyUpdate_fields (data : List (String × Value)) (t : Trip) :
    (applyUpdate data t).destination = (data.lookup "destination").getD t.destination ∧
    (applyUpdate data t).days = (data.lookup "days").getD t.days ∧
    (applyUpdate data t).price = (data.lookup "price").getD t.price ∧
    (applyUpdate data t).hotel = (data.lookup "hotel").getD t.hotel ∧
    (applyUpdate data t).rating = (data.lookup "rating").getD t.rating := by
  unfold applyUpdate requiredFields
  simp only [List.foldl_cons, List.foldl_nil]
  cases h1 : data.lookup "destination" <;> cases h2 : data.lookup "days" <;>
    cases h3 : data.lookup "price" <;> cases h4 : data.lookup "hotel" <;>
    cases h5 : data.lookup "rating" <;>
    simp [updStep, setField, h1, h2, h3, h4, h5]

/-- Removing the id-matching records from a collection whose other records
all carry different ids removes exactly the distinguished record. -/
theorem filter_ne_decomp (pre post : List Trip) (t0 : Trip)
    (hpre : ∀ u ∈ pre, u.id ≠ t0.id) (hpost : ∀ u ∈ post, u.id ≠ t0.id) :
    (pre ++ t0 :: post).filter (fun u => decide (u.id ≠ t0.id)) = pre ++ post := by
  rw [List.filter_append]
  have h1 : pre.filter (fun u => decide (u.id ≠ t0.id)) = pre :=
    List.filter_eq_self.mpr (fun u hu => decide_eq_true (hpre u hu))
  have h2 : (t0 :: post).filter (fun u => decide (u.id ≠ t0.id)) = post := by
    rw [List.filter_cons]
    simp only [decide_eq_true_eq]
    rw [if_neg (by simp)]
    exact List.filter_eq_self.mpr (fun u hu => decide_eq_true (hpost u hu))
  rw [h1, h2]

/-- In a collection with pairwise distinct ids, the records on either side
of an occurrence all carry a different id. -/
theorem nodup_ids_decomp (pre post : List Trip) (t0 : Trip)
    (hnd : (((pre ++ t0 :: post)).map Trip.id).Nodup) :
    (∀ u ∈ pre, u.id ≠ t0.id) ∧ ∀ u ∈ post, u.id ≠ t0.id := by
  rw [List.map_append, List.nodup_append] at hnd
  obtain ⟨hp, hq, hdisj⟩ := hnd
  rw [List.map_cons, List.nodup_cons] at hq
  obtain ⟨hnotin, _⟩ := hq
  constructor
  · intro u hu heq
    exact hdisj (List.mem_map.mpr ⟨u, hu, rfl⟩) (by rw [List.map_cons]; exact heq ▸ List.mem_cons_self _ _)
  · intro u hu heq
    exact hnotin (heq ▸ List.mem_map.mpr ⟨u, hu, rfl⟩)

/-- On a non-empty column the computed stats triple attains its min and
max on the column and reports the rounded mean. -/
theorem fieldStatsOf_spec (l : List ℚ) (h : l ≠ []) :
    (fieldStatsOf l).min ∈ l ∧ (∀ x ∈ l, (fieldStatsOf l).min ≤ x) ∧
    (fieldStatsOf l).max ∈ l ∧ (∀ x ∈ l, x ≤ (fieldStatsOf l).max) ∧
    (fieldStatsOf l).avg = pyRound2 (l.sum / l.length) := by
  obtain ⟨m1, m2⟩ := pyMin_spec l h
  obtain ⟨hM1, hM2⟩ := pyMax_spec l h
  refine ⟨m1, m2, hM1, hM2, ?_⟩
  show pyRound2 (pySum l / l.length) = pyRound2 (l.sum / l.length)
  rw [pySum_eq_sum]

/-- Sample records and payloads used to instantiate the theorems at
concrete inputs. -/
def tripParis : Trip :=
  ⟨1, .str "Paris", .int 3, .float 500, .str "Ritz", .float 4⟩

def tripRome : Trip :=
  ⟨2, .str "Rome", .int 5, .float 300, .str "Hilton", .float 5⟩

def payloadRome : List (String × Value) :=
  [("destination", .str "Rome"), ("days", .int 5), ("price", .float 300),
   ("hotel", .str "Hilton"), ("rating", .float 5)]

def payloadPriceId : List (String × Value) :=
  [("price", .float 250), ("id", .int 77)]

/-- C1: a successful create assigns the new record the id one greater than
the maximum id of the existing records, and id 1 on the empty
collection. -/
theorem create_assigns_max_plus_one (trips trips' : List Trip)
    (data : List (String × Value)) (t : Trip)
    (h : create_trip trips data = (trips', .created t)) :
    (trips = [] → t.id = 1) ∧
    (trips ≠ [] → (∃ u ∈ trips, t.id = u.id + 1) ∧ ∀ u ∈ trips, u.id < t.id) := by
  obtain ⟨hid, -, -, -, -⟩ := create_trip_created h
  constructor
  · intro he
    subst he
    simpa using hid
  · intro hne
    obtain ⟨⟨u, hu, hu'⟩, hlt⟩ := next_id_spec trips hne
    refine ⟨⟨u, hu, by rw [hid, hu']⟩, fun v hv => ?_⟩
    rw [hid]
    exact hlt v hv

theorem create_assigns_max_plus_one_witness :
    (∃ u ∈ [tripParis], tripRome.id = u.id + 1) ∧
    ∀ u ∈ [tripParis], u.id < tripRome.id :=
  (create_assigns_max_plus_one [tripParis] [tripParis, tripRome] payloadRome tripRome
    (by decide)).2 (by decide)

/-- C6: updating an id absent from the collection reports not-found and
returns the collection unchanged. -/
theorem update_absent_id_not_found (trips : List Trip) (tid : Int)
    (data : List (String × Value)) (h : ∀ u ∈ trips, u.id ≠ tid) :
    update_trip trips tid data = (trips, none) :=
  update_trip_notFound trips tid data h

theorem update_absent_id_not_found_witness :
    update_trip [tripParis, tripRome] 99 payloadPriceId = ([tripParis, tripRome], none) :=
  update_absent_id_not_found [tripParis, tripRome] 99 payloadPriceId (by decide)

/-- C9: updating an existing id rewrites exactly the payload-present
fields of exactly that record; the id is preserved even when the payload
carries an `id` key, payload-absent fields keep their values, and the
records before and after it are returned verbatim. -/
theorem update_overwrites_only_payload_fields (pre post : List Trip) (t0 : Trip)
    (tid : Int) (data : List (String × Value))
    (hpre : ∀ u ∈ pre, u.id ≠ tid) (ht : t0.id = tid) :
    update_trip (pre ++ t0 :: post) tid data =
      (pre ++ applyUpdate data t0 :: post, some (applyUpdate data t0)) ∧
    (applyUpdate data t0).id = t0.id ∧
    (applyUpdate data t0).destination = (data.lookup "destination").getD t0.destination ∧
    (applyUpdate data t0).days = (data.lookup "days").getD t0.days ∧
    (applyUpdate data t0).price = (data.lookup "price").getD t0.price ∧
    (applyUpdate data t0).hotel = (data.lookup "hotel").getD t0.hotel ∧
    (applyUpdate data t0).rating = (data.lookup "rating").getD t0.rating := by
  obtain ⟨f1, f2, f3, f4, f5⟩ := applyUpdate_fields data t0
  exact ⟨update_trip_found pre post t0 tid data hpre ht, applyUpdate_id data t0,
    f1, f2, f3, f4, f5⟩

theorem update_overwrites_only_payload_fields_witness :
    update_trip ([tripParis] ++ tripRome :: []) 2 payloadPriceId =
      ([tripParis] ++ applyUpdate payloadPriceId tripRome :: [],
       some (applyUpdate payloadPriceId tripRome)) ∧
    (applyUpdate payloadPriceId tripRome).id = tripRome.id ∧
    (applyUpdate payloadPriceId tripRome).destination =
      (payloadPriceId.lookup "destination").getD tripRome.destination ∧
    (applyUpdate payloadPriceId tripRome).days =
      (payloadPriceId.lookup "days").getD tripRome.days ∧
    (applyUpdate payloadPriceId tripRome).price =
      (payloadPriceId.lookup "price").getD tripRome.price ∧
    (applyUpdate payloadPriceId tripRome).hotel =
      (payloadPriceId.lookup "hotel").getD tripRome.hotel ∧
    (applyUpdate payloadPriceId tripRome).rating =
      (payloadPriceId.lookup "rating").getD tripRome.rating :=
  update_overwrites_only_payload_fields [tripParis] [] tripRome 2 payloadPriceId
    (by decide) (by decide)

/-- C7: deleting an existing id (in a collection with pairwise distinct
ids) succeeds, removes exactly that record, keeps every other record in
order, shrinks the length by one, and a repeated delete of the same id
reports not-found on the unchanged collection. -/
theorem delete_existing_id (trips : List Trip) (t0 : Trip)
    (hmem : t0 ∈ trips) (hnd : (trips.map Trip.id).Nodup) :
    (delete_trip trips t0.id).2 = true ∧
    (delete_trip trips t0.id).1.length + 1 = trips.length ∧
    List.Sublist (delete_trip trips t0.id).1 trips ∧
    (∀ u, u ∈ (delete_trip trips t0.id).1 ↔ u ∈ trips ∧ u.id ≠ t0.id) ∧
    delete_trip (delete_trip trips t0.id).1 t0.id = ((delete_trip trips t0.id).1, false) := by
  obtain ⟨pre, post, rfl⟩ := List.append_of_mem hmem
  obtain ⟨hpre, hpost⟩ := nodup_ids_decomp pre post t0 hnd
  have hfil : (pre ++ t0 :: post).filter (fun u => decide (u.id ≠ t0.id)) = pre ++ post :=
    filter_ne_decomp pre post t0 hpre hpost
  have hfst : (delete_trip (pre ++ t0 :: post) t0.id).1 = pre ++ post := hfil
  have hlen : (pre ++ post).length + 1 = (pre ++ t0 :: post).length := by
    simp
    omega
  refine ⟨?_, ?_, ?_, ?_, ?_⟩
  · show decide (¬ ((pre ++ t0 :: post).filter
      (fun u => decide (u.id ≠ t0.id))).length = (pre ++ t0 :: post).length) = true
    rw [hfil]
    exact decide_eq_true (by omega)
  · rw [hfst]
    exact hlen
  · rw [hfst]
    exact List.Sublist.append_left (List.sublist_cons_self t0 post) pre
  · intro u
    rw [hfst]
    constructor
    · intro hu
      rcases List.mem_append.mp hu with h | h
      · exact ⟨List.mem_append_left _ h, hpre u h⟩
      · exact ⟨List.mem_append_right _ (List.mem_cons_of_mem t0 h), hpost u h⟩
    · rintro ⟨hu, hne⟩
      rcases List.mem_append.mp hu with h | h
      · exact List.mem_append_left _ h
      · rcases List.mem_cons.mp h with rfl | h
        · exact absurd rfl hne
        · exact List.mem_append_right _ h
  · rw [hfst]
    have hall : (pre ++ post).filter (fun u => decide (u.id ≠ t0.id)) = pre ++ post := by
      apply List.filter_eq_self.mpr
      intro u hu
      rcases List.mem_append.mp hu with h | h
      · exact decide_eq_true (hpre u h)
      · exact decide_eq_true (hpost u h)
    show ((pre ++ post).filter (fun u => decide (u.id ≠ t0.id)),
      decide (¬ ((pre ++ post).filter (fun u => decide (u.id ≠ t0.id))).length =
        (pre ++ post).length)) = (pre ++ post, false)
    rw [hall]
    simp

theorem delete_existing_id_witness :
    (delete_trip [tripParis, tripRome] tripRome.id).2 = true ∧
    (delete_trip [tripParis, tripRome] tripRome.id).1.length + 1 =
      ([tripParis, tripRome] : List Trip).length ∧
    List.Sublist (delete_trip [tripParis, tripRome] tripRome.id).1 [tripParis, tripRome] ∧
    (∀ u, u ∈ (delete_trip [tripParis, tripRome] tripRome.id).1 ↔
      u ∈ [tripParis, tripRome] ∧ u.id ≠ tripRome.id) ∧
    delete_trip (delete_trip [tripParis, tripRome] tripRome.id).1 tripRome.id =
      ((delete_trip [tripParis, tripRome] tripRome.id).1, false) :=
  delete_existing_id [tripParis, tripRome] tripRome (by decide) (by decide)

def payloadBadDays : List (String × Value) :=
  [("destination", .str "Paris"), ("days", .str "abc"), ("price", .float 500),
   ("hotel", .str "Ritz"), ("rating", .float 4)]

/-- C4 as stated fails: a payload with all five fields present but a
malformed `days` value makes `int()` raise; the route has no handler, so
the outcome is the uncaught-exception one, not the structured
missing-field ValidationError response or the malformed-body response
(the collection is left unchanged). -/
theorem create_malformed_not_structured_cex :
    create_trip [] payloadBadDays = ([], .valueError) ∧
    CreateResult.valueError ≠ .missingField "days" ∧
    CreateResult.valueError ≠ .badJson :=
  ⟨by decide, by decide, by decide⟩

/-- C4 amended: on a payload with all five required fields present and a
numeric field that does not coerce, create raises an uncaught coercion
error (surfaced by the framework as an internal server error rather than
a structured ValidationError response) and the collection is left
unchanged. -/
theorem create_malformed_raises_unchanged (trips : List Trip)
    (data : List (String × Value))
    (hall : ∀ f ∈ requiredFields, (data.lookup f).isSome = true)
    (hbad : pyInt ((data.lookup "days").getD .null) = none ∨
            pyFloat ((data.lookup "price").getD .null) = none ∨
            pyFloat ((data.lookup "rating").getD .null) = none) :
    create_trip trips data = (trips, .valueError) := by
  have hne : data.isEmpty = false := by
    cases data with
    | nil =>
      have := hall "destination" (by simp [requiredFields])
      simp [List.lookup] at this
    | cons p ps => rfl
  have hfind : requiredFields.find? (fun f => (data.lookup f).isNone) = none := by
    rw [List.find?_eq_none]
    intro f hf
    have hs := hall f hf
    simp only [Bool.not_eq_true, Option.isNone_eq_false_iff]
    exact hs
  unfold create_trip
  rw [if_neg (by rw [hne]; exact Bool.false_ne_true)]
  rw [hfind]
  cases h1 : pyInt ((data.lookup "days").getD .null) with
  | none => rfl
  | some d =>
    cases h2 : pyFloat ((data.lookup "price").getD .null) with
    | none => rfl
    | some p =>
      cases h3 : pyFloat ((data.lookup "rating").getD .null) with
      | none => rfl
      | some r =>
        rcases hbad with hb | hb | hb
        · rw [h1] at hb; exact absurd hb (by simp)
        · rw [h2] at hb; exact absurd hb (by simp)
        · rw [h3] at hb; exact absurd hb (by simp)

theorem create_malformed_raises_unchanged_witness :
    create_trip [tripParis] payloadBadDays = ([tripParis], .valueError) :=
  create_malformed_raises_unchanged [tripParis] payloadBadDays (by decide)
    (Or.inl (by decide))

/-- C5 as stated fails on the empty JSON object: it is missing all five
required fields, but because an empty dict is falsy in Python the route
answers with the malformed-body response, which names no field. -/
theorem create_empty_object_cex :
    create_trip [] ([] : List (String × Value)) = ([], .badJson) ∧
    CreateResult.badJson ≠ .missingField "destination" ∧
    CreateResult.badJson ≠ .missingField "days" ∧
    CreateResult.badJson ≠ .missingField "price" ∧
    CreateResult.badJson ≠ .missingField "hotel" ∧
    CreateResult.badJson ≠ .missingField "rating" :=
  ⟨by decide, by decide, by decide, by decide, by decide, by decide⟩

/-- C5 amended: for a non-empty payload, a missing required field produces
the ValidationError response naming a missing required field with the
collection (hence the next id) unchanged; with all five fields present and
coercible numerics, create succeeds, storing `days` coerced to integer and
`price` and `rating` coerced to float. -/
theorem create_presence_validation (trips : List Trip)
    (data : List (String × Value)) (hne : data ≠ []) :
    ((∃ f ∈ requiredFields, data.lookup f = none) →
      ∃ f ∈ requiredFields, data.lookup f = none ∧
        create_trip trips data = (trips, .missingField f)) ∧
    (∀ d p r, (∀ f ∈ requiredFields, (data.lookup f).isSome = true) →
      pyInt ((data.lookup "days").getD .null) = some d →
      pyFloat ((data.lookup "price").getD .null) = some p →
      pyFloat ((data.lookup "rating").getD .null) = some r →
      create_trip trips data =
        (trips ++ [⟨_get_next_id trips, (data.lookup "destination").getD .null, .int d,
           .float p, (data.lookup "hotel").getD .null, .float r⟩],
         .created ⟨_get_next_id trips, (data.lookup "destination").getD .null, .int d,
           .float p, (data.lookup "hotel").getD .null, .float r⟩)) := by
  have hneB : ¬ data.isEmpty = true := by
    cases data with
    | nil => exact absurd rfl hne
    | cons p ps => simp
  constructor
  · intro hex
    have hsome : (requiredFields.find? (fun g => (data.lookup g).isNone)).isSome = true := by
      rw [List.find?_isSome]
      obtain ⟨f, hf, hnone⟩ := hex
      exact ⟨f, hf, by simp [hnone]⟩
    obtain ⟨f', heq⟩ := Option.isSome_iff_exists.mp hsome
    have hmemf : f' ∈ requiredFields := List.mem_of_find?_eq_some heq
    have hpf : (data.lookup f').isNone = true := by
      have := List.find?_some heq
      simpa using this
    refine ⟨f', hmemf, Option.isNone_iff_eq_none.mp hpf, ?_⟩
    unfold create_trip
    rw [if_neg hneB, heq]
  · intro d p r hall h1 h2 h3
    have hfind : requiredFields.find? (fun f => (data.lookup f).isNone) = none := by
      rw [List.find?_eq_none]
      intro f hf
      have hs := hall f hf
      simp only [Bool.not_eq_true, Option.isNone_eq_false_iff]
      exact hs
    unfold create_trip
    rw [if_neg hneB, hfind, h1, h2, h3]

def payloadNoHotel : List (String × Value) :=
  [("destination", .str "Rome"), ("days", .int 5), ("price", .float 300),
   ("rating", .float 5)]

theorem create_presence_validation_witness :
    (∃ f ∈ requiredFields, payloadNoHotel.lookup f = none ∧
       create_trip [] payloadNoHotel = ([], .missingField f)) ∧
    create_trip [] payloadNoHotel = ([], .missingField "hotel") ∧
    create_trip [] payloadRome =
      ([] ++ [⟨_get_next_id [], (payloadRome.lookup "destination").getD .null, .int 5,
         .float 300, (payloadRome.lookup "hotel").getD .null, .float 5⟩],
       .created ⟨_get_next_id [], (payloadRome.lookup "destination").getD .null, .int 5,
         .float 300, (payloadRome.lookup "hotel").getD .null, .float 5⟩) :=
  ⟨(create_presence_validation [] payloadNoHotel (by decide)).1 ⟨"hotel", by decide, by decide⟩,
   by decide,
   (create_presence_validation [] payloadRome (by decide)).2 5 300 5 (by decide) (by decide)
     (by decide) (by decide)⟩

def tripGap1 : Trip :=
  ⟨1, .str "Oslo", .int 2, .float 100, .str "Inn", .float 3⟩

def tripGap3 : Trip :=
  ⟨3, .str "Kyiv", .int 4, .float 200, .str "Dnipro", .float 5⟩

/-- A reachable collection with an id gap: create three times, delete id
2, leaving ids 1 and 3. -/
def gapTrips : List Trip :=
  [tripGap1, tripGap3]

def payloadNew : List (String × Value) :=
  [("destination", .str "Lviv"), ("days", .int 6), ("price", .float 300),
   ("hotel", .str "Opera"), ("rating", .float 4)]

/-- C10 as stated fails: in the collection with ids 1 and 3, deleting the
trip holding the maximum id 3 and creating again assigns id 2 (one more
than the remaining maximum), not the deleted id 3. -/
theorem id_reuse_cex :
    (∃ u ∈ gapTrips, u.id = 3) ∧ (∀ u ∈ gapTrips, u.id ≤ 3) ∧ gapTrips ≠ [] ∧
    (create_trip (delete_trip gapTrips 3).1 payloadNew).2 =
      .created ⟨2, .str "Lviv", .int 6, .float 300, .str "Opera", .float 4⟩ ∧
    (2 : Int) ≠ 3 :=
  ⟨by decide, by decide, by decide, by decide, by decide⟩

/-- C10 amended: after deleting the record holding the maximum id, the
next successful create assigns the maximum remaining id plus one (1 if no
record remains); this equals the deleted id exactly when a remaining
record carries the predecessor id (or when the collection became empty
and the deleted id was 1), so the deleted maximum id can be reassigned
but need not be. -/
theorem id_reuse_after_delete_max (trips trips' : List Trip) (t0 t : Trip)
    (data : List (String × Value))
    (_hmem : t0 ∈ trips) (hmax : ∀ u ∈ trips, u.id ≤ t0.id)
    (hc : create_trip (delete_trip trips t0.id).1 data = (trips', .created t)) :
    t.id = _get_next_id (delete_trip trips t0.id).1 ∧
    (t.id = t0.id ↔ ((delete_trip trips t0.id).1 = [] ∧ t0.id = 1) ∨
      ∃ u ∈ (delete_trip trips t0.id).1, u.id = t0.id - 1) := by
  obtain ⟨hid, -, -, -, -⟩ := create_trip_created hc
  have hrest : (delete_trip trips t0.id).1 =
      trips.filter (fun u => decide (u.id ≠ t0.id)) := rfl
  have hlt : ∀ u ∈ (delete_trip trips t0.id).1, u.id < t0.id := by
    intro u hu
    rw [hrest] at hu
    obtain ⟨hmemu, hpu⟩ := List.mem_filter.mp hu
    have hne : u.id ≠ t0.id := of_decide_eq_true hpu
    have := hmax u hmemu
    omega
  refine ⟨hid, ?_⟩
  by_cases he : (delete_trip trips t0.id).1 = []
  · rw [he] at hid
    constructor
    · intro h
      left
      exact ⟨he, by rw [← h, hid]; rfl⟩
    · rintro (⟨-, h1⟩ | ⟨u, hu, -⟩)
      · rw [hid, h1]; rfl
      · rw [he] at hu
        exact absurd hu (List.not_mem_nil u)
  · obtain ⟨⟨u, hu, hu'⟩, hbnd⟩ := next_id_spec _ he
    constructor
    · intro h
      right
      refine ⟨u, hu, ?_⟩
      have := hlt u hu
      rw [hid, hu'] at h
      omega
    · rintro (⟨h1, -⟩ | ⟨w, hw, hw'⟩)
      · exact absurd h1 he
      · have h2 := hbnd w hw
        have h3 := hlt u hu
        rw [hid, hu']
        rw [hu'] at h2
        omega

def tripNew2 : Trip :=
  ⟨2, .str "Lviv", .int 6, .float 300, .str "Opera", .float 4⟩

theorem id_reuse_after_delete_max_witness :
    tripNew2.id = _get_next_id (delete_trip gapTrips tripGap3.id).1 ∧
    (tripNew2.id = tripGap3.id ↔
      ((delete_trip gapTrips tripGap3.id).1 = [] ∧ tripGap3.id = 1) ∨
      ∃ u ∈ (delete_trip gapTrips tripGap3.id).1, u.id = tripGap3.id - 1) :=
  id_reuse_after_delete_max gapTrips ((delete_trip gapTrips tripGap3.id).1 ++ [tripNew2])
    tripGap3 tripNew2 payloadNew (by decide) (by decide) (by decide)

/-- The handler's per-column output: min and max are attained on the
column and the average is the rounded mean. -/
theorem statsColumn_spec (trips : List Trip) (g : Trip → Value) (hne : trips ≠ []) :
    (fieldStatsOf ((trips.map g).map Value.numVal)).min ∈ (trips.map g).map Value.numVal ∧
    (∀ x ∈ (trips.map g).map Value.numVal,
      (fieldStatsOf ((trips.map g).map Value.numVal)).min ≤ x) ∧
    (fieldStatsOf ((trips.map g).map Value.numVal)).max ∈ (trips.map g).map Value.numVal ∧
    (∀ x ∈ (trips.map g).map Value.numVal,
      x ≤ (fieldStatsOf ((trips.map g).map Value.numVal)).max) ∧
    (fieldStatsOf ((trips.map g).map Value.numVal)).avg =
      pyRound2 (((trips.map g).map Value.numVal).sum / trips.length) := by
  have hne' : (trips.map g).map Value.numVal ≠ [] := by simp [hne]
  have hlen : ((trips.map g).map Value.numVal).length = trips.length := by simp
  obtain ⟨a, b, c, d, e⟩ := fieldStatsOf_spec _ hne'
  refine ⟨a, b, c, d, ?_⟩
  rw [e, hlen]

/-- C2: on a non-empty schema-typed collection, stats reports for each of
days, price and rating a minimum and maximum attained on that column and
the column mean rounded to two decimal places; on the empty collection it
reports NoData. -/
theorem stats_min_max_avg (trips : List Trip) :
    (trips = [] → trips_stats trips = .noData) ∧
    (trips ≠ [] → (∀ t ∈ trips, WellTyped t = true) →
      ∃ r, trips_stats trips = .ok r ∧
        (r.days.min ∈ (trips.map Trip.days).map Value.numVal ∧
         (∀ x ∈ (trips.map Trip.days).map Value.numVal, r.days.min ≤ x) ∧
         r.days.max ∈ (trips.map Trip.days).map Value.numVal ∧
         (∀ x ∈ (trips.map Trip.days).map Value.numVal, x ≤ r.days.max) ∧
         r.days.avg =
           pyRound2 (((trips.map Trip.days).map Value.numVal).sum / trips.length)) ∧
        (r.price.min ∈ (trips.map Trip.price).map Value.numVal ∧
         (∀ x ∈ (trips.map Trip.price).map Value.numVal, r.price.min ≤ x) ∧
         r.price.max ∈ (trips.map Trip.price).map Value.numVal ∧
         (∀ x ∈ (trips.map Trip.price).map Value.numVal, x ≤ r.price.max) ∧
         r.price.avg =
           pyRound2 (((trips.map Trip.price).map Value.numVal).sum / trips.length)) ∧
        (r.rating.min ∈ (trips.map Trip.rating).map Value.numVal ∧
         (∀ x ∈ (trips.map Trip.rating).map Value.numVal, r.rating.min ≤ x) ∧
         r.rating.max ∈ (trips.map Trip.rating).map Value.numVal ∧
         (∀ x ∈ (trips.map Trip.rating).map Value.numVal, x ≤ r.rating.max) ∧
         r.rating.avg =
           pyRound2 (((trips.map Trip.rating).map Value.numVal).sum / trips.length))) := by
  constructor
  · intro he
    subst he
    rfl
  · intro hne hwt
    have hall : (((trips.map Trip.days ++ trips.map Trip.price) ++
        trips.map Trip.rating).all Value.isNum) = true := by
      rw [List.all_append, List.all_append]
      simp only [Bool.and_eq_true]
      refine ⟨⟨?_, ?_⟩, ?_⟩ <;>
        · rw [List.all_eq_true]
          intro v hv
          obtain ⟨t, ht, rfl⟩ := List.mem_map.mp hv
          have hw := hwt t ht
          unfold WellTyped at hw
          simp only [Bool.and_eq_true] at hw
          obtain ⟨⟨⟨⟨w1, w2⟩, w3⟩, w4⟩, w5⟩ := hw
          first
            | exact w2
            | exact w3
            | exact w5
    have hmain : trips_stats trips =
        .ok ⟨fieldStatsOf ((trips.map Trip.days).map Value.numVal),
             fieldStatsOf ((trips.map Trip.price).map Value.numVal),
             fieldStatsOf ((trips.map Trip.rating).map Value.numVal)⟩ := by
      unfold trips_stats
      rw [if_neg hne, if_pos hall]
    exact ⟨_, hmain, statsColumn_spec trips Trip.days hne,
      statsColumn_spec trips Trip.price hne, statsColumn_spec trips Trip.rating hne⟩

theorem stats_min_max_avg_witness :
    ∃ r, trips_stats [tripParis, tripRome] = .ok r ∧
      (r.days.min ∈ ([tripParis, tripRome].map Trip.days).map Value.numVal ∧
       (∀ x ∈ ([tripParis, tripRome].map Trip.days).map Value.numVal, r.days.min ≤ x) ∧
       r.days.max ∈ ([tripParis, tripRome].map Trip.days).map Value.numVal ∧
       (∀ x ∈ ([tripParis, tripRome].map Trip.days).map Value.numVal, x ≤ r.days.max) ∧
       r.days.avg = pyRound2 ((([tripParis, tripRome].map Trip.days).map Value.numVal).sum /
         ([tripParis, tripRome] : List Trip).length)) ∧
      (r.price.min ∈ ([tripParis, tripRome].map Trip.price).map Value.numVal ∧
       (∀ x ∈ ([tripParis, tripRome].map Trip.price).map Value.numVal, r.price.min ≤ x) ∧
       r.price.max ∈ ([tripParis, tripRome].map Trip.price).map Value.numVal ∧
       (∀ x ∈ ([tripParis, tripRome].map Trip.price).map Value.numVal, x ≤ r.price.max) ∧
       r.price.avg = pyRound2 ((([tripParis, tripRome].map Trip.price).map Value.numVal).sum /
         ([tripParis, tripRome] : List Trip).length)) ∧
      (r.rating.min ∈ ([tripParis, tripRome].map Trip.rating).map Value.numVal ∧
       (∀ x ∈ ([tripParis, tripRome].map Trip.rating).map Value.numVal, r.rating.min ≤ x) ∧
       r.rating.max ∈ ([tripParis, tripRome].map Trip.rating).map Value.numVal ∧
       (∀ x ∈ ([tripParis, tripRome].map Trip.rating).map Value.numVal, x ≤ r.rating.max) ∧
       r.rating.avg = pyRound2 ((([tripParis, tripRome].map Trip.rating).map Value.numVal).sum /
         ([tripParis, tripRome] : List Trip).length)) :=
  (stats_min_max_avg [tripParis, tripRome]).2 (by decide) (by decide)

/-- C3: with a sort key that is a record field and a schema-typed
collection, listing returns a permutation that is ordered by the key,
descending exactly when the lowered order parameter is `desc` and
ascending otherwise, and stably: each equal-key fibre keeps its insertion
order. -/
theorem list_sort_sorted_stable (trips : List Trip) (s : String) (order : Option String)
    (hs : s ∈ tripKeys) (hwt : ∀ t ∈ trips, WellTyped t = true) :
    List.Perm (get_trips trips (some s) order) trips ∧
    (pyLower (order.getD "asc") = "desc" →
      List.Sorted (descBy s) (get_trips trips (some s) order)) ∧
    (pyLower (order.getD "asc") ≠ "desc" →
      List.Sorted (ascBy s) (get_trips trips (some s) order)) ∧
    ∀ v : Value, (get_trips trips (some s) order).filter (fun t => decide (t.get s = v)) =
      trips.filter (fun t => decide (t.get s = v)) := by
  have hsne : s ≠ "" := by
    simp only [tripKeys, List.mem_cons, List.not_mem_nil, or_false] at hs
    rcases hs with rfl | rfl | rfl | rfl | rfl | rfl <;> decide
  by_cases hne : trips = []
  · subst hne
    have hred : get_trips [] (some s) order = [] := by
      simp [get_trips]
    rw [hred]
    exact ⟨List.Perm.refl _, fun _ => List.sorted_nil, fun _ => List.sorted_nil, fun v => rfl⟩
  · have hguard : s ≠ "" ∧ trips ≠ [] ∧ s ∈ tripKeys := ⟨hsne, hne, hs⟩
    by_cases hdesc : pyLower (order.getD "asc") = "desc"
    · have hred : get_trips trips (some s) order = List.insertionSort (descBy s) trips := by
        simp only [get_trips]
        rw [if_pos hguard, if_pos hdesc]
      rw [hred]
      haveI : IsTotal Trip (descBy s) := ⟨descBy_total s⟩
      haveI : IsTrans Trip (descBy s) := ⟨descBy_trans s⟩
      refine ⟨List.perm_insertionSort _ _, fun _ => List.sorted_insertionSort _ _,
        fun hcon => absurd hdesc hcon, fun v => ?_⟩
      refine insertionSort_filter_eq trips _ (fun a b ha hb => ?_)
      unfold descBy
      rw [of_decide_eq_true ha, of_decide_eq_true hb]
      exact vle_refl v
    · have hred : get_trips trips (some s) order = List.insertionSort (ascBy s) trips := by
        simp only [get_trips]
        rw [if_pos hguard, if_neg hdesc]
      rw [hred]
      haveI : IsTotal Trip (ascBy s) := ⟨ascBy_total s⟩
      haveI : IsTrans Trip (ascBy s) := ⟨ascBy_trans s⟩
      refine ⟨List.perm_insertionSort _ _, fun hcon => absurd hcon hdesc,
        fun _ => List.sorted_insertionSort _ _, fun v => ?_⟩
      refine insertionSort_filter_eq trips _ (fun a b ha hb => ?_)
      unfold ascBy
      rw [of_decide_eq_true ha, of_decide_eq_true hb]
      exact vle_refl v

def tripBonn : Trip :=
  ⟨3, .str "Bonn", .int 7, .float 300, .str "Rhein", .float 2⟩

/-- A collection with a price tie between the second and third records. -/
def sortDemo : List Trip :=
  [tripParis, tripRome, tripBonn]

theorem list_sort_sorted_stable_witness :
    List.Perm (get_trips sortDemo (some "price") (some "desc")) sortDemo ∧
    List.Sorted (descBy "price") (get_trips sortDemo (some "price") (some "desc")) ∧
    ∀ v : Value, (get_trips sortDemo (some "price") (some "desc")).filter
        (fun t => decide (t.get "price" = v)) =
      sortDemo.filter (fun t => decide (t.get "price" = v)) :=
  have h := list_sort_sorted_stable sortDemo "price" (some "desc") (by decide) (by decide)
  ⟨h.1, h.2.1 (by decide), h.2.2.2⟩

/-- C8: with no sort key, or a sort key that is not a record field, the
records come back in insertion order and no error is reported. -/
theorem list_unrecognized_sort_insertion_order (trips : List Trip) (sort : Option String)
    (order : Option String)
    (h : sort = none ∨ ∃ s, sort = some s ∧ s ∉ tripKeys) :
    get_trips trips sort order = trips := by
  rcases h with rfl | ⟨s, rfl, hsk⟩
  · rfl
  · simp only [get_trips]
    rw [if_neg (fun hg => hsk hg.2.2)]

theorem list_unrecognized_sort_insertion_order_witness :
    get_trips [tripParis, tripRome] (some "priceX") (some "desc") = [tripParis, tripRome] :=
  list_unrecognized_sort_insertion_order [tripParis, tripRome] (some "priceX") (some "desc")
    (Or.inr ⟨"priceX", rfl, by decide⟩)
